import Mathlib

/-!
Verification development for the Polymer databinding expression scanner
(`src/polymer/expression-scanner.ts`).

The TypeScript source is shallowly embedded: JS strings become `List Char`,
string indices become `Nat`, the external JS expression parser (`parseJs`,
an external collaborator) becomes a function parameter, and the estree AST
nodes the grammar validator inspects become an inductive type.
-/

set_option maxHeartbeats 1000000

/-- Position inside a source file: 0-indexed line, 0-indexed column. -/
structure Position where
  line : Nat
  column : Nat
deriving Repr, DecidableEq

/-- Source range: `{file, start, end}` with 0-indexed lines, end exclusive. -/
structure SourceRange where
  file : String
  start : Position
  «end» : Position
deriving Repr, DecidableEq

/-- Absolute position of some substring's own start (`{line, col}`). -/
structure LocationOffset where
  line : Nat
  col : Nat
deriving Repr, DecidableEq

/-- Severity of a diagnostic. -/
inductive Severity where
  | INFO
  | WARNING
deriving Repr, DecidableEq

/-- A diagnostic: `{code, message, sourceRange, severity}`.  The source
builds some ranges through a non-null assertion on a possibly-undefined
value, so the range is embedded as an `Option`. -/
structure Warning where
  code : String
  message : String
  sourceRange : Option SourceRange
  severity : Severity
deriving Repr, DecidableEq

/-- Modelled from the spec: `correctSourceRange` / its per-position rule
lives in `src/model/model.ts`, which is not part of the given sources.
Spec 4.3: always add the offset's line to every line number; add the
offset's column to a position's column only when that position's line
number is still 0. -/
def correctPosition (position : Position) (locationOffset : LocationOffset) : Position :=
  { line := position.line + locationOffset.line
    column := position.column + (if position.line = 0 then locationOffset.col else 0) }

/-- Modelled from the spec: composition of a relative `SourceRange` with the
absolute `LocationOffset` of the string's own start (spec 4.3), applying
`correctPosition` to both endpoints of the range. -/
def correctSourceRange (sourceRange : SourceRange) (locationOffset : LocationOffset) :
    SourceRange :=
  { file := sourceRange.file
    start := correctPosition sourceRange.start locationOffset
    «end» := correctPosition sourceRange.«end» locationOffset }

/-- One raw delimiter span found in a string, before parsing
(`interface RawDatabinding`).  The direction char is `'{'` for a
mustache (`{{...}}`) binding and `'['` for a bracket (`[[...]]`) one,
exactly as in the source's `'{' | '['` union type. -/
structure RawDatabinding where
  expressionText : List Char
  startIndex : Nat
  endIndex : Nat
  direction : Char
deriving Repr, DecidableEq

/-- Whether the pattern `pat` occurs in `s` starting exactly at index `i`. -/
def hasPatAt (s pat : List Char) (i : Nat) : Bool :=
  (s.drop i).take pat.length == pat

/-- Embedding of the JS string primitive `s.indexOf(pat, i)`: the least
index `j ≥ i` at which `pat` occurs in `s`, or `none` (JS: `-1`). -/
def indexOfFrom (s pat : List Char) (i : Nat) : Option Nat :=
  ((List.range (s.length + 1)).filter fun j => decide (i ≤ j) && hasPatAt s pat j).head?

/-- Embedding of `openers.exec(str)` for the sticky regex `/{{|\[\[/g` with
`lastIndex = i`: the first index `j ≥ i` at which either two-character
opener occurs, paired with the direction char the source derives from the
matched opener (`matchedOpeners === '{{' ? '{' : '['`). -/
def execOpeners (s : List Char) (i : Nat) : Option (Nat × Char) :=
  (((List.range (s.length + 1)).filter fun j =>
      decide (i ≤ j) && (hasPatAt s ['{', '{'] j || hasPatAt s ['[', '['] j)).head?).map
    fun j => (j, if hasPatAt s ['{', '{'] j then '{' else '[')

theorem hasPatAt_length_le {s pat : List Char} {i : Nat} (h : hasPatAt s pat i = true)
    (hi : i ≤ s.length) : i + pat.length ≤ s.length := by
  unfold hasPatAt at h
  have hlen : ((s.drop i).take pat.length).length = pat.length := by
    rw [beq_iff_eq] at h
    rw [h]
  rw [List.length_take, List.length_drop] at hlen
  omega

theorem indexOfFrom_some {s pat : List Char} {i j : Nat} (h : indexOfFrom s pat i = some j) :
    i ≤ j ∧ j ≤ s.length ∧ hasPatAt s pat j = true := by
  unfold indexOfFrom at h
  have hmem : j ∈ (List.range (s.length + 1)).filter
      fun j => decide (i ≤ j) && hasPatAt s pat j := List.mem_of_mem_head? h
  have h1 := List.of_mem_filter hmem
  have h2 := List.mem_range.mp (List.mem_of_mem_filter hmem)
  simp only [Bool.and_eq_true, decide_eq_true_eq] at h1
  exact ⟨h1.1, by omega, h1.2⟩

theorem execOpeners_some {s : List Char} {i m : Nat} {d : Char}
    (h : execOpeners s i = some (m, d)) :
    i ≤ m ∧ m ≤ s.length ∧
      (hasPatAt s ['{', '{'] m = true ∨ hasPatAt s ['[', '['] m = true) := by
  unfold execOpeners at h
  rw [Option.map_eq_some'] at h
  obtain ⟨j, hj, hjd⟩ := h
  have hmj : m = j := by
    have := congrArg Prod.fst hjd
    simpa using this.symm
  subst hmj
  have hmem : m ∈ (List.range (s.length + 1)).filter
      fun j => decide (i ≤ j) && (hasPatAt s ['{', '{'] j || hasPatAt s ['[', '['] j) :=
    List.mem_of_mem_head? hj
  have h1 := List.of_mem_filter hmem
  have h2 := List.mem_range.mp (List.mem_of_mem_filter hmem)
  simp only [Bool.and_eq_true, Bool.or_eq_true, decide_eq_true_eq] at h1
  exact ⟨h1.1, by omega, h1.2⟩

/-- Scan loop of `findDatabindingInString`, entered with the regex
`lastIndex` at `i`: find the next opener, then the matching closer with
`indexOf`; if the closer is missing, break (abort the rest of the string);
otherwise emit the raw binding and resume the opener search at
`endIndex + 2`. -/
def findDatabindingAux (str : List Char) (i : Nat) : List RawDatabinding :=
  match hm : execOpeners str i with
  | none => []
  | some (matchIndex, direction) =>
    match he : indexOfFrom str (if direction = '{' then ['}', '}'] else [']', ']'])
        (matchIndex + 2) with
    | none => []
    | some endIndex =>
      { expressionText := (str.take endIndex).drop (matchIndex + 2)
        startIndex := matchIndex + 2
        endIndex := endIndex
        direction := direction }
        :: findDatabindingAux str (endIndex + 2)
termination_by str.length + 1 - i
decreasing_by
  have h1 := execOpeners_some hm
  have h2 := indexOfFrom_some he
  have h3 : matchIndex + 2 ≤ str.length := by
    rcases h1.2.2 with hp | hp
    · have := hasPatAt_length_le hp h1.2.1
      simpa using this
    · have := hasPatAt_length_le hp h1.2.1
      simpa using this
  omega

/-- Embedding of `findDatabindingInString(str)`. -/
def findDatabindingInString (str : List Char) : List RawDatabinding :=
  findDatabindingAux str 0

theorem findDatabindingAux_none {s : List Char} {i : Nat}
    (h : execOpeners s i = none) : findDatabindingAux s i = [] := by
  rw [findDatabindingAux]
  split
  · rfl
  · next m d hm => rw [h] at hm; exact absurd hm (by simp)

theorem findDatabindingAux_abort {s : List Char} {i m : Nat} {d : Char}
    (h1 : execOpeners s i = some (m, d))
    (h2 : indexOfFrom s (if d = '{' then ['}', '}'] else [']', ']']) (m + 2) = none) :
    findDatabindingAux s i = [] := by
  rw [findDatabindingAux]
  split
  · rfl
  · next m2 d2 hm =>
    rw [h1] at hm
    injection hm with hm
    injection hm with hma hmb
    subst hma; subst hmb
    split
    · rfl
    · next j he => rw [h2] at he; exact absurd he (by simp)

theorem findDatabindingAux_emit {s : List Char} {i m j : Nat} {d : Char}
    (h1 : execOpeners s i = some (m, d))
    (h2 : indexOfFrom s (if d = '{' then ['}', '}'] else [']', ']']) (m + 2) = some j) :
    findDatabindingAux s i =
      { expressionText := (s.take j).drop (m + 2), startIndex := m + 2,
        endIndex := j, direction := d } :: findDatabindingAux s (j + 2) := by
  rw [findDatabindingAux]
  split
  · next hm => rw [h1] at hm; exact absurd hm (by simp)
  · next m2 d2 hm =>
    rw [h1] at hm
    injection hm with hm
    injection hm with hma hmb
    subst hma; subst hmb
    split
    · next he => rw [h2] at he; exact absurd he (by simp)
    · next j2 he =>
      rw [h2] at he
      injection he with he
      subst he
      rfl

/-- Position reported by the estree parser: 1-indexed line, 0-indexed column. -/
structure EstreePosition where
  line : Nat
  column : Nat
deriving Repr, DecidableEq

/-- Location attached to an estree AST node. -/
structure EstreeLoc where
  start : EstreePosition
  «end» : EstreePosition
deriving Repr, DecidableEq

/-- The estree expression nodes the grammar validator distinguishes.  Every
node kind it does not treat specially is collapsed into `otherExpr`, which
carries the node's `type` string (the validator only reads that string to
build its diagnostic message). -/
inductive EsExpr where
  | literal (loc : Option EstreeLoc)
  | identifier (name : String) (loc : Option EstreeLoc)
  | memberExpression (object : EsExpr) (property : EsExpr) (loc : Option EstreeLoc)
  | callExpression (callee : EsExpr) (arguments : List EsExpr) (loc : Option EstreeLoc)
  | unaryExpression (operator : String) (argument : EsExpr) (loc : Option EstreeLoc)
  | otherExpr (typeName : String) (loc : Option EstreeLoc)
deriving Repr

/-- The `type` string of an estree expression node. -/
def EsExpr.type : EsExpr → String
  | .literal _ => "Literal"
  | .identifier _ _ => "Identifier"
  | .memberExpression _ _ _ => "MemberExpression"
  | .callExpression _ _ _ => "CallExpression"
  | .unaryExpression _ _ _ => "UnaryExpression"
  | .otherExpr t _ => t

/-- The `loc` of an estree expression node. -/
def EsExpr.loc : EsExpr → Option EstreeLoc
  | .literal l => l
  | .identifier _ l => l
  | .memberExpression _ _ l => l
  | .callExpression _ _ l => l
  | .unaryExpression _ _ l => l
  | .otherExpr _ l => l

/-- An estree statement: the validator only distinguishes
`ExpressionStatement` from everything else. -/
inductive Statement where
  | expressionStatement (expression : EsExpr) (loc : Option EstreeLoc)
  | otherStatement (typeName : String) (loc : Option EstreeLoc)
deriving Repr

/-- The `type` string of a statement node. -/
def Statement.type : Statement → String
  | .expressionStatement _ _ => "ExpressionStatement"
  | .otherStatement t _ => t

/-- The `loc` of a statement node. -/
def Statement.loc : Statement → Option EstreeLoc
  | .expressionStatement _ l => l
  | .otherStatement _ l => l

/-- An estree `Program`: the AST the expression parser returns. -/
structure Program where
  body : List Statement
  loc : Option EstreeLoc
deriving Repr

/-- One recorded top-level property: `{name, sourceRange}`.  The source
fills the range through a non-null assertion, hence the `Option`. -/
structure Property where
  name : String
  sourceRange : Option SourceRange
deriving Repr, DecidableEq

/-- Embedding of `DatabindingExpression.sourceRangeForNode`: convert the
parser's 1-indexed lines to 0-indexed and shift by the expression's own
`locationOffset`; `none` when the node carries no location. -/
def sourceRangeForNode (file : String) (locationOffset : LocationOffset)
    (loc : Option EstreeLoc) : Option SourceRange :=
  match loc with
  | none => none
  | some l =>
    some (correctSourceRange
      { file := file
        start := { line := l.start.line - 1, column := l.start.column }
        «end» := { line := l.«end».line - 1, column := l.«end».column } }
      locationOffset)

/-- Embedding of `DatabindingExpression._validationWarning`. -/
def _validationWarning (file : String) (locationOffset : LocationOffset)
    (message : String) (loc : Option EstreeLoc) : Warning :=
  { code := "invalid-polymer-expression"
    message := message
    sourceRange := sourceRangeForNode file locationOffset loc
    severity := Severity.WARNING }

/-- Message of the catch-all rejection at the end of
`_extractAndValidateSubExpression`. -/
def unsupportedMessage (typeName : String) : String :=
  "Only simple syntax is supported in Polymer databinding expressions. "
    ++ typeName ++ " not expected here."

mutual

/-- Embedding of `DatabindingExpression._extractAndValidateSubExpression`:
returns the properties and warnings the source pushes, in push order.
Literals are accepted silently; identifiers record a property; member
access recurses into the object part only; calls recurse into callee and
arguments (each with `callAllowed = false`) when allowed; everything else
gets the catch-all warning. -/
def _extractAndValidateSubExpression (file : String) (locationOffset : LocationOffset) :
    EsExpr → Bool → List Property × List Warning
  | .literal _, _ => ([], [])
  | .identifier name loc, _ =>
    ([{ name := name, sourceRange := sourceRangeForNode file locationOffset loc }], [])
  | .memberExpression object _ _, _ =>
    _extractAndValidateSubExpression file locationOffset object false
  | .callExpression callee arguments loc, callAllowed =>
    if callAllowed then
      let fromCallee := _extractAndValidateSubExpression file locationOffset callee false
      let fromArgs := extractFromArguments file locationOffset arguments
      (fromCallee.1 ++ fromArgs.1, fromCallee.2 ++ fromArgs.2)
    else
      ([], [_validationWarning file locationOffset
        (unsupportedMessage "CallExpression") loc])
  | .unaryExpression _ _ loc, _ =>
    ([], [_validationWarning file locationOffset
      (unsupportedMessage "UnaryExpression") loc])
  | .otherExpr t loc, _ =>
    ([], [_validationWarning file locationOffset (unsupportedMessage t) loc])

/-- The `for (const arg of expression.arguments)` loop of the validator. -/
def extractFromArguments (file : String) (locationOffset : LocationOffset) :
    List EsExpr → List Property × List Warning
  | [] => ([], [])
  | e :: rest =>
    let fromHead := _extractAndValidateSubExpression file locationOffset e false
    let fromRest := extractFromArguments file locationOffset rest
    (fromHead.1 ++ fromRest.1, fromHead.2 ++ fromRest.2)

end

/-- Embedding of `DatabindingExpression._extractPropertiesAndValidate`:
exactly one statement, which must be an expression statement; an optional
top-level logical-not; then the recursive validation with
`callAllowed = true`. -/
def _extractPropertiesAndValidate (file : String) (locationOffset : LocationOffset)
    (ast : Program) : List Property × List Warning :=
  match ast.body with
  | [Statement.expressionStatement expression _] =>
    (match expression with
     | EsExpr.unaryExpression operator argument loc =>
       if operator ≠ "!" then
         ([], [_validationWarning file locationOffset
           "Only the logical not (!) operator is supported." loc])
       else
         _extractAndValidateSubExpression file locationOffset argument true
     | e => _extractAndValidateSubExpression file locationOffset e true)
  | [stmt] =>
    ([], [_validationWarning file locationOffset
      ("Expect an expression, not a " ++ stmt.type) stmt.loc])
  | body =>
    ([], [_validationWarning file locationOffset
      ("Expected one expression, got " ++ toString body.length) ast.loc])

/-- Result of the external expression parser `parseJs` (an external
collaborator of this subsystem): a parsed `Program` or a failure warning. -/
inductive ParseResult where
  | success (program : Program)
  | failure (warning : Warning)

/-- Type of the external `parseJs(content, file, offset, errorCode)`
collaborator the scanner delegates to. -/
abbrev ParseJs := List Char → String → LocationOffset → String → ParseResult

/-- Embedding of the test `/\.(\*|\d+)/.test(content)`: somewhere in the
string, a dot followed by `*` or by a digit (the `+` in the regex only
extends the digit run, so one digit after the dot suffices for `test`). -/
def subPropertyTest (content : List Char) : Bool :=
  (List.range content.length).any fun i =>
    match content.drop i with
    | '.' :: '*' :: _ => true
    | '.' :: c :: _ => c.isDigit
    | _ => false

/-- Embedding of `parseExpression(content, expressionSourceRange)`:
delegate to `parseJs`; keep a success; on failure, silently return `none`
when the sub-property / array-index path test matches, else return the
failure. -/
def parseExpression (parseJs : ParseJs) (content : List Char)
    (expressionSourceRange : SourceRange) : Option ParseResult :=
  match parseJs content expressionSourceRange.file
      { line := expressionSourceRange.start.line
        col := expressionSourceRange.start.column }
      "polymer-expression-parse-error" with
  | ParseResult.success p => some (ParseResult.success p)
  | ParseResult.failure w =>
    if subPropertyTest content then none else some (ParseResult.failure w)

/-- Embedding of `findNewlineIndexes(str)`: the ascending list of indices
of every newline character in the string. -/
def findNewlineIndexes (str : List Char) : List Nat :=
  (List.range str.length).filter fun i => str.getD i ' ' = '\n'

/-- The `for (const index of newlineIndexes)` loop of
`indexesToSourceRange`, threading the state
`(startLineNumLinesIntoText, startOfLineIndex, endLineNumLinesIntoText,
endOfLineIndex)`; the loop breaks at the first index not below
`endIndex`. -/
def indexesToSourceRangeLoop (startIndex endIndex : Nat) :
    List Nat → Nat × Nat × Nat × Nat → Nat × Nat × Nat × Nat
  | [], st => st
  | index :: rest, (sl, so, el, eo) =>
    let sl2 := if index < startIndex then sl + 1 else sl
    let so2 := if index < startIndex then index + 1 else so
    if index < endIndex then
      indexesToSourceRangeLoop startIndex endIndex rest (sl2, so2, el + 1, index + 1)
    else
      (sl2, so2, el, eo)

/-- Embedding of `indexesToSourceRange(startIndex, endIndex, filename,
newlineIndexes)`: a range relative to the string's own start. -/
def indexesToSourceRange (startIndex endIndex : Nat) (filename : String)
    (newlineIndexes : List Nat) : SourceRange :=
  match indexesToSourceRangeLoop startIndex endIndex newlineIndexes (0, 0, 0, 0) with
  | (startLineNumLinesIntoText, startOfLineIndex, endLineNumLinesIntoText, endOfLineIndex) =>
    { file := filename
      start := { line := startLineNumLinesIntoText, column := startIndex - startOfLineIndex }
      «end» := { line := endLineNumLinesIntoText, column := endIndex - endOfLineIndex } }

/-- Split a single line at the LAST occurrence of `::`, when one exists. -/
def lastColonColonSplit : List Char → Option (List Char × List Char)
  | [] => none
  | c :: rest =>
    match lastColonColonSplit rest with
    | some (m1, m2) => some (c :: m1, m2)
    | none =>
      if (c :: rest).take 2 = [':', ':'] then some ([], rest.drop 1) else none

/-- Split a string into its newline-separated lines. -/
def splitOnNewlines : List Char → List (List Char)
  | [] => [[]]
  | '\n' :: rest => [] :: splitOnNewlines rest
  | c :: rest =>
    match splitOnNewlines rest with
    | l :: ls => (c :: l) :: ls
    | [] => [[c]]

/-- Embedding of `expressionText.match(/(.*)::(.*)/)`.  In that regex `.`
does not match a newline, so the leftmost match lives entirely inside the
first line that contains `::`; greediness of the first `(.*)` puts the
split at the LAST `::` of that line, and the second `(.*)` takes the rest
of the line.  Returns `(match[1], match[2])`. -/
def matchEventNameSplit (s : List Char) : Option (List Char × List Char) :=
  (splitOnNewlines s).findSome? lastColonColonSplit

/-- Embedding of `TextNodeDatabindingExpression` with the fields of its
base class `DatabindingExpression`; `properties` and `warnings` are the
lists the constructor's validation pass fills. -/
structure TextNodeDatabindingExpression where
  direction : Char
  sourceRange : SourceRange
  expressionText : List Char
  _expressionAst : Program
  properties : List Property
  warnings : List Warning

/-- Embedding of `AttributeDatabindingExpression` (base-class fields
included); `eventName` is `none` when no `::eventName` suffix was split. -/
structure AttributeDatabindingExpression where
  isCompleteBinding : Bool
  direction : Char
  eventName : Option (List Char)
  sourceRange : SourceRange
  expressionText : List Char
  _expressionAst : Program
  properties : List Property
  warnings : List Warning

/-- Embedding of the `DatabindingExpression` constructor for a text-node
site: derive the `locationOffset` from the expression's own source range
and run `_extractPropertiesAndValidate`. -/
def mkTextNodeDatabindingExpression (direction : Char) (sourceRange : SourceRange)
    (expressionText : List Char) (ast : Program) : TextNodeDatabindingExpression :=
  let pw := _extractPropertiesAndValidate sourceRange.file
    { line := sourceRange.start.line, col := sourceRange.start.column } ast
  { direction := direction, sourceRange := sourceRange, expressionText := expressionText
    _expressionAst := ast, properties := pw.1, warnings := pw.2 }

/-- Embedding of the `DatabindingExpression` constructor for an attribute
site. -/
def mkAttributeDatabindingExpression (isCompleteBinding : Bool) (direction : Char)
    (eventName : Option (List Char)) (sourceRange : SourceRange)
    (expressionText : List Char) (ast : Program) : AttributeDatabindingExpression :=
  let pw := _extractPropertiesAndValidate sourceRange.file
    { line := sourceRange.start.line, col := sourceRange.start.column } ast
  { isCompleteBinding := isCompleteBinding, direction := direction, eventName := eventName
    sourceRange := sourceRange, expressionText := expressionText
    _expressionAst := ast, properties := pw.1, warnings := pw.2 }

/-- The union `HtmlDatabindingExpression` of the two HTML binding sites. -/
inductive HtmlDatabindingExpression where
  | textNode (e : TextNodeDatabindingExpression)
  | attribute (e : AttributeDatabindingExpression)

/-- The shared `sourceRange` field of an `HtmlDatabindingExpression`. -/
def HtmlDatabindingExpression.sourceRange : HtmlDatabindingExpression → SourceRange
  | .textNode e => e.sourceRange
  | .attribute e => e.sourceRange

/-- The shared `expressionText` field of an `HtmlDatabindingExpression`. -/
def HtmlDatabindingExpression.expressionText : HtmlDatabindingExpression → List Char
  | .textNode e => e.expressionText
  | .attribute e => e.expressionText

/-- The `for (const dataBinding of dataBindings)` loop of
`extractDataBindingsFromTextNode`: translate the binding's indices to a
range, shift it by the text node's offset, parse, and either skip
(`parseExpression` returned `undefined`), push the failure warning, or
push the constructed expression together with its validation warnings. -/
def textNodeBindingLoop (parseJs : ParseJs) (file : String) (newlineIndexes : List Nat)
    (startOfTextNodeOffset : LocationOffset) :
    List RawDatabinding → List HtmlDatabindingExpression → List Warning →
    List HtmlDatabindingExpression × List Warning
  | [], results, warnings => (results, warnings)
  | dataBinding :: rest, results, warnings =>
    let sourceRange := correctSourceRange
      (indexesToSourceRange dataBinding.startIndex dataBinding.endIndex file newlineIndexes)
      startOfTextNodeOffset
    match parseExpression parseJs dataBinding.expressionText sourceRange with
    | none =>
      textNodeBindingLoop parseJs file newlineIndexes startOfTextNodeOffset
        rest results warnings
    | some (ParseResult.failure w) =>
      textNodeBindingLoop parseJs file newlineIndexes startOfTextNodeOffset
        rest results (warnings ++ [w])
    | some (ParseResult.success program) =>
      let expression := mkTextNodeDatabindingExpression dataBinding.direction
        sourceRange dataBinding.expressionText program
      textNodeBindingLoop parseJs file newlineIndexes startOfTextNodeOffset
        rest (results ++ [HtmlDatabindingExpression.textNode expression])
        (warnings ++ expression.warnings)

/-- Embedding of `extractDataBindingsFromTextNode(document, node, results,
warnings)`.  The text node itself is represented by the two pieces of data
the function reads from it: its `value` (`nodeValue`, with JS's
`node.value || ''` coalescing) and the range
`document.sourceRangeForNode(node)` (`nodeSourceRange`, `none` when the
document cannot supply one). -/
def extractDataBindingsFromTextNode (parseJs : ParseJs)
    (nodeValue : Option (List Char)) (nodeSourceRange : Option SourceRange)
    (results : List HtmlDatabindingExpression) (warnings : List Warning) :
    List HtmlDatabindingExpression × List Warning :=
  let text := nodeValue.getD []
  let dataBindings := findDatabindingInString text
  if dataBindings.length = 0 then (results, warnings)
  else
    let newlineIndexes := findNewlineIndexes text
    match nodeSourceRange with
    | none => (results, warnings)
    | some nsr =>
      textNodeBindingLoop parseJs nsr.file newlineIndexes
        { line := nsr.start.line, col := nsr.start.column }
        dataBindings results warnings

/-- The `let expressionText / let eventName` block of the attribute
binding loop: for a mustache-direction binding, split off a `::eventName`
suffix with `expressionText.match(/(.*)::(.*)/)` when it matches; bracket
bindings keep their text, with no event name. -/
def attrExpressionTextAndEvent (dataBinding : RawDatabinding) :
    List Char × Option (List Char) :=
  if dataBinding.direction = '{' then
    match matchEventNameSplit dataBinding.expressionText with
    | some m => (m.1, some m.2)
    | none => (dataBinding.expressionText, none)
  else (dataBinding.expressionText, none)

/-- The `for (const dataBinding of dataBindings)` loop of
`extractDataBindingsFromAttr`: compute `isFullAttributeBinding`, split a
`::eventName` suffix off mustache-direction expression text, translate and
shift the range, parse the (possibly split) text, and skip / push the
failure warning / push the constructed expression. -/
def attrBindingLoop (parseJs : ParseJs) (attrValue : List Char) (file : String)
    (newlineIndexes : List Nat) (attributeOffset : LocationOffset) :
    List RawDatabinding → List HtmlDatabindingExpression → List Warning →
    List HtmlDatabindingExpression × List Warning
  | [], results, warnings => (results, warnings)
  | dataBinding :: rest, results, warnings =>
    let isFullAttributeBinding : Bool :=
      dataBinding.startIndex == 2 && dataBinding.endIndex + 2 == attrValue.length
    let expressionText := (attrExpressionTextAndEvent dataBinding).1
    let eventName := (attrExpressionTextAndEvent dataBinding).2
    let sourceRange := correctSourceRange
      (indexesToSourceRange dataBinding.startIndex dataBinding.endIndex file newlineIndexes)
      attributeOffset
    match parseExpression parseJs expressionText sourceRange with
    | none =>
      attrBindingLoop parseJs attrValue file newlineIndexes attributeOffset
        rest results warnings
    | some (ParseResult.failure w) =>
      attrBindingLoop parseJs attrValue file newlineIndexes attributeOffset
        rest results (warnings ++ [w])
    | some (ParseResult.success program) =>
      let expression := mkAttributeDatabindingExpression isFullAttributeBinding
        dataBinding.direction eventName sourceRange expressionText program
      attrBindingLoop parseJs attrValue file newlineIndexes attributeOffset
        rest (results ++ [HtmlDatabindingExpression.attribute expression])
        (warnings ++ expression.warnings)

/-- Embedding of `extractDataBindingsFromAttr(document, node, attr,
results, warnings)`.  The attribute is represented by the data the
function reads: its `value` (`attrValue`; JS's `if (!attr.value) return`
makes the empty value an early return) and the quoted-value range
`document.sourceRangeForAttributeValue(node, attr.name, true)`
(`attributeValueRange`, `none` when the document cannot supply one). -/
def extractDataBindingsFromAttr (parseJs : ParseJs) (attrValue : List Char)
    (attributeValueRange : Option SourceRange)
    (results : List HtmlDatabindingExpression) (warnings : List Warning) :
    List HtmlDatabindingExpression × List Warning :=
  if attrValue = [] then (results, warnings)
  else
    let dataBindings := findDatabindingInString attrValue
    match attributeValueRange with
    | none => (results, warnings)
    | some avr =>
      attrBindingLoop parseJs attrValue avr.file (findNewlineIndexes attrValue)
        { line := avr.start.line, col := avr.start.column }
        dataBindings results warnings

/-- The `eventName` of an HTML databinding expression, for attribute
sites; text-node sites carry none. -/
def HtmlDatabindingExpression.eventNameOf : HtmlDatabindingExpression → Option (List Char)
  | .attribute e => e.eventName
  | .textNode _ => none

/-- The `isCompleteBinding` flag of an HTML databinding expression, for
attribute sites; text-node sites carry none. -/
def HtmlDatabindingExpression.isCompleteBindingOf :
    HtmlDatabindingExpression → Option Bool
  | .attribute e => some e.isCompleteBinding
  | .textNode _ => none

/-- A concrete absolute source range used to exercise the extractors on
concrete inputs. -/
def r0 : SourceRange :=
  { file := "f", start := { line := 0, column := 0 }, «end» := { line := 0, column := 0 } }

/-- A concrete parse-failure diagnostic, of the severity the real
`parseJs` collaborator attaches to parse failures. -/
def parseFailureWarning : Warning :=
  { code := "polymer-expression-parse-error", message := "could not parse"
    sourceRange := none, severity := Severity.WARNING }

/-- A one-identifier program, as the parser would return for a bare
identifier expression. -/
def identProgram (name : String) : Program :=
  { body := [Statement.expressionStatement (EsExpr.identifier name none) none]
    loc := none }

/-- A concrete parser collaborator that parses exactly one expression text
and fails on every other input. -/
def parseJsOnly (good : String) : ParseJs := fun content _ _ _ =>
  if content = good.toList then ParseResult.success (identProgram good)
  else ParseResult.failure parseFailureWarning

/-- A concrete parser collaborator that fails on every input. -/
def parseJsAlwaysFail : ParseJs := fun _ _ _ _ =>
  ParseResult.failure parseFailureWarning

/-- The parsed AST of the expression text `foo(bar, baz.zod)`: a call of
the identifier `foo` on the identifier `bar` and the member access
`baz.zod`. -/
def fooBarBazZodProgram : Program :=
  { body := [Statement.expressionStatement
      (EsExpr.callExpression (EsExpr.identifier "foo" none)
        [EsExpr.identifier "bar" none,
         EsExpr.memberExpression (EsExpr.identifier "baz" none)
           (EsExpr.identifier "zod" none) none] none) none]
    loc := none }

/-- C1: validating `foo(bar, baz.zod)` records exactly the properties
`foo`, `bar`, `baz` in that order with no warnings (`zod` never appears);
and in general, member access recurses into the object part only, so its
result never depends on (nor records) the accessed-property node. -/
theorem claim_C1 :
    (∀ file locationOffset,
      ((_extractPropertiesAndValidate file locationOffset fooBarBazZodProgram).1.map
          Property.name = ["foo", "bar", "baz"]) ∧
      (_extractPropertiesAndValidate file locationOffset fooBarBazZodProgram).2 = []) ∧
    (∀ file locationOffset object property loc callAllowed,
      _extractAndValidateSubExpression file locationOffset
          (EsExpr.memberExpression object property loc) callAllowed
        = _extractAndValidateSubExpression file locationOffset object false) := by
  constructor
  · intro file locationOffset
    exact ⟨rfl, rfl⟩
  · intro file locationOffset object property loc callAllowed
    rfl

/-- C10: when the document supplies no source range for a text node (or
for an attribute's quoted value), the extractor returns the accumulator
sequences unchanged — no expressions, no warnings — for every text. -/
theorem claim_C10 :
    (∀ parseJs nodeValue results warnings,
      extractDataBindingsFromTextNode parseJs nodeValue none results warnings
        = (results, warnings)) ∧
    (∀ parseJs attrValue results warnings,
      extractDataBindingsFromAttr parseJs attrValue none results warnings
        = (results, warnings)) := by
  constructor
  · intro parseJs nodeValue results warnings
    simp only [extractDataBindingsFromTextNode, ite_self]
  · intro parseJs attrValue results warnings
    simp only [extractDataBindingsFromAttr, ite_self]

theorem hasPatAt_of_length_le {s pat : List Char} {j : Nat} (h : s.length ≤ j)
    (hp : pat ≠ []) : hasPatAt s pat j = false := by
  unfold hasPatAt
  rw [List.drop_eq_nil_of_le h]
  simp only [List.take_nil, beq_eq_false_iff_ne, ne_eq]
  exact fun hc => hp hc.symm

/-- C3: whenever the scanner finds a two-character opener but no matching
two-character closer occurs anywhere at or after the expression start, the
scan of the remainder of the string is aborted with no bindings emitted;
in particular `"{{unterminated"` yields zero bindings. -/
theorem claim_C3 :
    (∀ (s : List Char) (i m : Nat) (d : Char),
      execOpeners s i = some (m, d) →
      (∀ j, m + 2 ≤ j →
        hasPatAt s (if d = '{' then ['}', '}'] else [']', ']']) j = false) →
      findDatabindingAux s i = []) ∧
    findDatabindingInString "\x7b\x7bunterminated".toList = [] := by
  constructor
  · intro s i m d hm hno
    refine findDatabindingAux_abort hm ?_
    unfold indexOfFrom
    rw [List.head?_eq_none_iff]
    rw [List.filter_eq_nil_iff]
    intro j _
    by_cases hj : m + 2 ≤ j
    · simp [hno j hj]
    · simp [hj]
  · exact findDatabindingAux_abort (m := 0) (d := '{') (by decide) (by decide)

/-- Closed instance of the general part of `claim_C3`: a two-character
mustache opener with nothing after it has no closer, so the scan yields
nothing. -/
theorem claim_C3_witness : findDatabindingAux "\x7b\x7b".toList 0 = [] := by
  apply claim_C3.1 "\x7b\x7b".toList 0 0 '{' (by decide)
  intro j hj
  exact hasPatAt_of_length_le (by simpa using hj) (by simp)

/-- C8: the scan loop, on finding an opener at `m` and its closer at `j`,
emits the raw binding with `startIndex = m + 2` (just past the opener),
`endIndex = j` (the closer), expression text `s[m+2 .. j)`, and resumes at
`j + 2`; concretely `"a {{foo}} b [[bar]] c"` yields exactly the mustache
binding `foo` then the bracket binding `bar`. -/
theorem claim_C8 :
    (∀ (s : List Char) (i m j : Nat) (d : Char),
      execOpeners s i = some (m, d) →
      indexOfFrom s (if d = '{' then ['}', '}'] else [']', ']']) (m + 2) = some j →
      findDatabindingAux s i =
        { expressionText := (s.take j).drop (m + 2), startIndex := m + 2,
          endIndex := j, direction := d } :: findDatabindingAux s (j + 2)) ∧
    findDatabindingInString "a {{foo}} b [[bar]] c".toList =
      [{ expressionText := "foo".toList, startIndex := 4, endIndex := 7, direction := '{' },
       { expressionText := "bar".toList, startIndex := 14, endIndex := 17,
         direction := '[' }] := by
  constructor
  · intro s i m j d h1 h2
    exact findDatabindingAux_emit h1 h2
  · rw [findDatabindingInString,
      findDatabindingAux_emit (m := 2) (j := 7) (d := '{') (by decide) (by decide),
      findDatabindingAux_emit (m := 12) (j := 17) (d := '[') (by decide) (by decide),
      findDatabindingAux_none (by decide)]
    decide

/-- Closed instance of the general part of `claim_C8` at the first opener
of `"a {{foo}} b [[bar]] c"`. -/
theorem claim_C8_witness :
    findDatabindingAux "a {{foo}} b [[bar]] c".toList 0 =
      { expressionText := ("a {{foo}} b [[bar]] c".toList.take 7).drop 4,
        startIndex := 4, endIndex := 7, direction := '{' }
        :: findDatabindingAux "a {{foo}} b [[bar]] c".toList 9 :=
  claim_C8.1 "a {{foo}} b [[bar]] c".toList 0 2 7 '{' (by decide) (by decide)

/-- C4: composing a relative range with an absolute offset adds the
offset's line to every line number but adds its column only to a position
whose relative line is 0; concretely, for text-node value
`"line1\n{{foo}}"` starting at absolute line 10, column `c`, the binding's
absolute start is line 11, column 2 — independent of `c`. -/
theorem claim_C4 :
    (∀ (r : SourceRange) (off : LocationOffset),
      (correctSourceRange r off).start.line = r.start.line + off.line ∧
      (correctSourceRange r off).«end».line = r.«end».line + off.line ∧
      (correctSourceRange r off).start.column
        = r.start.column + (if r.start.line = 0 then off.col else 0) ∧
      (correctSourceRange r off).«end».column
        = r.«end».column + (if r.«end».line = 0 then off.col else 0)) ∧
    (∀ c : Nat,
      ((extractDataBindingsFromTextNode (parseJsOnly "foo")
          (some "line1\n{{foo}}".toList)
          (some { file := "f", start := { line := 10, column := c },
                  «end» := { line := 11, column := 7 } }) [] []).1.map
        fun e => e.sourceRange.start) = [{ line := 11, column := 2 }]) := by
  constructor
  · intro r off
    exact ⟨rfl, rfl, rfl, rfl⟩
  · intro c
    have hscan : findDatabindingInString "line1\n{{foo}}".toList =
        [{ expressionText := "foo".toList, startIndex := 8, endIndex := 11,
           direction := '{' }] := by
      rw [findDatabindingInString,
        findDatabindingAux_emit (m := 6) (j := 11) (d := '{') (by decide) (by decide),
        findDatabindingAux_none (by decide)]
      decide
    have hnl : findNewlineIndexes "line1\n{{foo}}".toList = [5] := by decide
    have hrange : indexesToSourceRange 8 11 "f" [5] =
        { file := "f", start := { line := 1, column := 2 },
          «end» := { line := 1, column := 5 } } := by decide
    simp only [extractDataBindingsFromTextNode, hscan, hnl, Option.getD_some,
      List.length_cons, List.length_nil]
    norm_num
    simp only [textNodeBindingLoop, hrange, correctSourceRange, correctPosition,
      parseExpression, parseJsOnly, mkTextNodeDatabindingExpression,
      HtmlDatabindingExpression.sourceRange]
    norm_num

/-- Every attribute expression the attribute binding loop appends comes
from one of the raw bindings it consumed, and its `isCompleteBinding`,
`direction`, `expressionText` and `eventName` fields are computed from
that raw binding exactly as the loop body does. -/
theorem attrBindingLoop_mem {parseJs : ParseJs} {attrValue : List Char} {file : String}
    {newlineIndexes : List Nat} {attributeOffset : LocationOffset} :
    ∀ (dataBindings : List RawDatabinding) (results : List HtmlDatabindingExpression)
      (warnings : List Warning) (e : AttributeDatabindingExpression),
      HtmlDatabindingExpression.attribute e ∈
        (attrBindingLoop parseJs attrValue file newlineIndexes attributeOffset
          dataBindings results warnings).1 →
      HtmlDatabindingExpression.attribute e ∈ results ∨
        ∃ db ∈ dataBindings,
          e.isCompleteBinding
              = (db.startIndex == 2 && db.endIndex + 2 == attrValue.length) ∧
          e.direction = db.direction ∧
          e.expressionText = (attrExpressionTextAndEvent db).1 ∧
          e.eventName = (attrExpressionTextAndEvent db).2 := by
  intro dataBindings
  induction dataBindings with
  | nil =>
    intro results warnings e hmem
    simp only [attrBindingLoop] at hmem
    exact Or.inl hmem
  | cons db rest ih =>
    intro results warnings e hmem
    simp only [attrBindingLoop] at hmem
    rcases hp : parseExpression parseJs (attrExpressionTextAndEvent db).1
        (correctSourceRange
          (indexesToSourceRange db.startIndex db.endIndex file newlineIndexes)
          attributeOffset) with _ | pr
    · rw [hp] at hmem
      rcases ih _ _ _ hmem with h | ⟨db2, hdb2, hprops⟩
      · exact Or.inl h
      · exact Or.inr ⟨db2, List.mem_cons_of_mem _ hdb2, hprops⟩
    · rcases pr with p | w
      · rw [hp] at hmem
        rcases ih _ _ _ hmem with h | ⟨db2, hdb2, hprops⟩
        · rw [List.mem_append, List.mem_singleton] at h
          rcases h with h | h
          · exact Or.inl h
          · injection h with h
            subst h
            refine Or.inr ⟨db, List.mem_cons_self _ _, ?_⟩
            simp [mkAttributeDatabindingExpression]
        · exact Or.inr ⟨db2, List.mem_cons_of_mem _ hdb2, hprops⟩
      · rw [hp] at hmem
        rcases ih _ _ _ hmem with h | ⟨db2, hdb2, hprops⟩
        · exact Or.inl h
        · exact Or.inr ⟨db2, List.mem_cons_of_mem _ hdb2, hprops⟩

/-- C5: an attribute expression's `isCompleteBinding` is true exactly when
its raw binding's delimiters span the whole attribute value
(`startIndex = 2` and `endIndex + 2 = value.length`); concretely
`foo="{{bar}}"` gives `true` and `foo="x {{bar}} y"` gives `false`. -/
theorem claim_C5 :
    (∀ (parseJs : ParseJs) (attrValue : List Char) (file : String)
        (newlineIndexes : List Nat) (attributeOffset : LocationOffset)
        (dataBindings : List RawDatabinding) (results : List HtmlDatabindingExpression)
        (warnings : List Warning) (e : AttributeDatabindingExpression),
      HtmlDatabindingExpression.attribute e ∈
        (attrBindingLoop parseJs attrValue file newlineIndexes attributeOffset
          dataBindings results warnings).1 →
      HtmlDatabindingExpression.attribute e ∈ results ∨
        ∃ db ∈ dataBindings,
          (e.isCompleteBinding = true ↔
            (db.startIndex = 2 ∧ db.endIndex + 2 = attrValue.length))) ∧
    ((extractDataBindingsFromAttr (parseJsOnly "bar") "{{bar}}".toList
        (some r0) [] []).1.map
      HtmlDatabindingExpression.isCompleteBindingOf = [some true]) ∧
    ((extractDataBindingsFromAttr (parseJsOnly "bar") "x {{bar}} y".toList
        (some r0) [] []).1.map
      HtmlDatabindingExpression.isCompleteBindingOf = [some false]) := by
  refine ⟨?_, ?_, ?_⟩
  · intro parseJs attrValue file newlineIndexes attributeOffset dataBindings
      results warnings e hmem
    rcases attrBindingLoop_mem dataBindings results warnings e hmem with
      h | ⟨db, hdb, hc, _⟩
    · exact Or.inl h
    · refine Or.inr ⟨db, hdb, ?_⟩
      rw [hc]
      simp [Bool.and_eq_true]
  · have hscan : findDatabindingInString "{{bar}}".toList =
        [{ expressionText := "bar".toList, startIndex := 2, endIndex := 5,
           direction := '{' }] := by
      rw [findDatabindingInString,
        findDatabindingAux_emit (m := 0) (j := 5) (d := '{') (by decide) (by decide),
        findDatabindingAux_none (by decide)]
      decide
    simp only [extractDataBindingsFromAttr, hscan]
    decide
  · have hscan : findDatabindingInString "x {{bar}} y".toList =
        [{ expressionText := "bar".toList, startIndex := 4, endIndex := 7,
           direction := '{' }] := by
      rw [findDatabindingInString,
        findDatabindingAux_emit (m := 2) (j := 7) (d := '{') (by decide) (by decide),
        findDatabindingAux_none (by decide)]
      decide
    simp only [extractDataBindingsFromAttr, hscan]
    decide

/-- The attribute expression built for the single binding of
`foo="{{bar}}"` under the `parseJsOnly "bar"` collaborator. -/
def eBarComplete : AttributeDatabindingExpression :=
  mkAttributeDatabindingExpression true '{' none
    (correctSourceRange (indexesToSourceRange 2 5 "f" []) { line := 0, col := 0 })
    "bar".toList (identProgram "bar")

/-- Closed instance of the general part of `claim_C5` at the binding of
`foo="{{bar}}"`. -/
theorem claim_C5_witness :
    HtmlDatabindingExpression.attribute eBarComplete ∈
        ([] : List HtmlDatabindingExpression) ∨
      ∃ db ∈ [RawDatabinding.mk "bar".toList 2 5 '{'],
        (eBarComplete.isCompleteBinding = true ↔
          (db.startIndex = 2 ∧ db.endIndex + 2 = ("{{bar}}".toList).length)) :=
  claim_C5.1 (parseJsOnly "bar") "{{bar}}".toList "f" [] { line := 0, col := 0 }
    [RawDatabinding.mk "bar".toList 2 5 '{'] [] [] eBarComplete
    (by
      show HtmlDatabindingExpression.attribute eBarComplete ∈
        [HtmlDatabindingExpression.attribute eBarComplete]
      exact List.mem_singleton.mpr rfl)

/-- C6: for mustache-direction attribute bindings only, a trailing
`::eventName` suffix is split off before parsing (shown concretely:
`"val::changed"` parses as `"val"` with event name `"changed"`, under a
collaborator that accepts only `"val"`); bracket-direction bindings are
never split and carry no event name. -/
theorem claim_C6 :
    ((extractDataBindingsFromAttr (parseJsOnly "val") "{{val::changed}}".toList
        (some r0) [] []).1.map
      (fun e => (e.expressionText, e.eventNameOf))
      = [("val".toList, some "changed".toList)]) ∧
    (∀ (parseJs : ParseJs) (attrValue : List Char) (file : String)
        (newlineIndexes : List Nat) (attributeOffset : LocationOffset)
        (dataBindings : List RawDatabinding) (results : List HtmlDatabindingExpression)
        (warnings : List Warning) (e : AttributeDatabindingExpression),
      HtmlDatabindingExpression.attribute e ∈
        (attrBindingLoop parseJs attrValue file newlineIndexes attributeOffset
          dataBindings results warnings).1 →
      HtmlDatabindingExpression.attribute e ∈ results ∨ e.direction = '{' ∨
        (e.eventName = none ∧ ∃ db ∈ dataBindings,
          e.direction = db.direction ∧ e.expressionText = db.expressionText)) := by
  constructor
  · have hscan : findDatabindingInString "{{val::changed}}".toList =
        [{ expressionText := "val::changed".toList, startIndex := 2, endIndex := 14,
           direction := '{' }] := by
      rw [findDatabindingInString,
        findDatabindingAux_emit (m := 0) (j := 14) (d := '{') (by decide) (by decide),
        findDatabindingAux_none (by decide)]
      decide
    simp only [extractDataBindingsFromAttr, hscan]
    decide
  · intro parseJs attrValue file newlineIndexes attributeOffset dataBindings
      results warnings e hmem
    rcases attrBindingLoop_mem dataBindings results warnings e hmem with
      h | ⟨db, hdb, _, hdir, htext, hevent⟩
    · exact Or.inl h
    · by_cases hd : db.direction = '{'
      · exact Or.inr (Or.inl (hdir.trans hd))
      · refine Or.inr (Or.inr ⟨?_, db, hdb, hdir, ?_⟩)
        · rw [hevent]
          unfold attrExpressionTextAndEvent
          rw [if_neg hd]
        · rw [htext]
          unfold attrExpressionTextAndEvent
          rw [if_neg hd]

/-- The attribute expression built for the single binding of
`foo="[[bar]]"` under the `parseJsOnly "bar"` collaborator. -/
def eBarBracket : AttributeDatabindingExpression :=
  mkAttributeDatabindingExpression true '[' none
    (correctSourceRange (indexesToSourceRange 2 5 "f" []) { line := 0, col := 0 })
    "bar".toList (identProgram "bar")

/-- Closed instance of the general part of `claim_C6` at the bracket
binding of `foo="[[bar]]"`. -/
theorem claim_C6_witness :
    HtmlDatabindingExpression.attribute eBarBracket ∈
        ([] : List HtmlDatabindingExpression) ∨
      eBarBracket.direction = '{' ∨
      (eBarBracket.eventName = none ∧
        ∃ db ∈ [RawDatabinding.mk "bar".toList 2 5 '['],
          eBarBracket.direction = db.direction ∧
            eBarBracket.expressionText = db.expressionText) :=
  claim_C6.2 (parseJsOnly "bar") "[[bar]]".toList "f" [] { line := 0, col := 0 }
    [RawDatabinding.mk "bar".toList 2 5 '['] [] [] eBarBracket
    (by
      show HtmlDatabindingExpression.attribute eBarBracket ∈
        [HtmlDatabindingExpression.attribute eBarBracket]
      exact List.mem_singleton.mpr rfl)

/-- C9: the `::eventName` split of a mustache binding happens at the LAST
occurrence of `::` (the regex `/(.*)::(.*)/` is greedy): the text
`"a::b::c"` splits into expression text `"a::b"` and event name `"c"`,
both at the `match` embedding and through the attribute extractor (under
a collaborator that accepts only `"a::b"`). -/
theorem claim_C9 :
    matchEventNameSplit "a::b::c".toList = some ("a::b".toList, "c".toList) ∧
    ((extractDataBindingsFromAttr (parseJsOnly "a::b") "{{a::b::c}}".toList
        (some r0) [] []).1.map
      (fun e => (e.expressionText, e.eventNameOf))
      = [("a::b".toList, some "c".toList)]) := by
  constructor
  · decide
  · have hscan : findDatabindingInString "{{a::b::c}}".toList =
        [{ expressionText := "a::b::c".toList, startIndex := 2, endIndex := 9,
           direction := '{' }] := by
      rw [findDatabindingInString,
        findDatabindingAux_emit (m := 0) (j := 9) (d := '{') (by decide) (by decide),
        findDatabindingAux_none (by decide)]
      decide
    simp only [extractDataBindingsFromAttr, hscan]
    decide

/-- The spec's wording for the escape hatch: the candidate text ends in a
path segment `.*` or `.<digits>`. -/
def trailingPathSegment (s : List Char) : Prop :=
  (∃ t : List Char, s = t ++ ['.', '*']) ∨
  (∃ (t ds : List Char), ds ≠ [] ∧ (∀ c ∈ ds, c.isDigit = true) ∧ s = t ++ '.' :: ds)

theorem trailingPathSegment_subPropertyTest {s : List Char}
    (h : trailingPathSegment s) : subPropertyTest s = true := by
  rcases h with ⟨t, rfl⟩ | ⟨t, ds, hne, hdigit, rfl⟩
  · unfold subPropertyTest
    rw [List.any_eq_true]
    refine ⟨t.length, List.mem_range.mpr (by simp), ?_⟩
    rw [List.drop_left]
    rfl
  · obtain ⟨d, ds2, rfl⟩ := List.exists_cons_of_ne_nil hne
    unfold subPropertyTest
    rw [List.any_eq_true]
    refine ⟨t.length, List.mem_range.mpr (by simp), ?_⟩
    rw [List.drop_left]
    have hd : d.isDigit = true := hdigit d (List.mem_cons_self _ _)
    split
    · rfl
    · next c tail heq =>
      injection heq with h1 heq
      injection heq with h2 heq
      rw [← h2]
      exact hd
    · next hno =>
      exact absurd rfl (hno d ds2)

/-- C7: a candidate expression text that the parser rejects but that ends
in a `.*` or `.<digits>` path segment is silently dropped: the
sub-property test matches, `parseExpression` returns `undefined`, and a
binding whose parse returned `undefined` contributes neither an expression
record nor any diagnostic in either extractor loop. -/
theorem claim_C7 :
    (∀ s : List Char, trailingPathSegment s → subPropertyTest s = true) ∧
    (∀ (parseJs : ParseJs) (content : List Char) (r : SourceRange) (w : Warning),
      parseJs content r.file { line := r.start.line, col := r.start.column }
          "polymer-expression-parse-error" = ParseResult.failure w →
      trailingPathSegment content →
      parseExpression parseJs content r = none) ∧
    (∀ (parseJs : ParseJs) (file : String) (newlineIndexes : List Nat)
        (startOfTextNodeOffset : LocationOffset) (db : RawDatabinding)
        (rest : List RawDatabinding) results warnings,
      parseExpression parseJs db.expressionText
          (correctSourceRange
            (indexesToSourceRange db.startIndex db.endIndex file newlineIndexes)
            startOfTextNodeOffset) = none →
      textNodeBindingLoop parseJs file newlineIndexes startOfTextNodeOffset
          (db :: rest) results warnings
        = textNodeBindingLoop parseJs file newlineIndexes startOfTextNodeOffset
            rest results warnings) ∧
    (∀ (parseJs : ParseJs) (attrValue : List Char) (file : String)
        (newlineIndexes : List Nat) (attributeOffset : LocationOffset)
        (db : RawDatabinding) (rest : List RawDatabinding) results warnings,
      parseExpression parseJs (attrExpressionTextAndEvent db).1
          (correctSourceRange
            (indexesToSourceRange db.startIndex db.endIndex file newlineIndexes)
            attributeOffset) = none →
      attrBindingLoop parseJs attrValue file newlineIndexes attributeOffset
          (db :: rest) results warnings
        = attrBindingLoop parseJs attrValue file newlineIndexes attributeOffset
            rest results warnings) := by
  refine ⟨fun s h => trailingPathSegment_subPropertyTest h, ?_, ?_, ?_⟩
  · intro parseJs content r w hfail htrail
    unfold parseExpression
    rw [hfail, trailingPathSegment_subPropertyTest htrail]
    rfl
  · intro parseJs file newlineIndexes startOfTextNodeOffset db rest results warnings h
    simp only [textNodeBindingLoop, h]
  · intro parseJs attrValue file newlineIndexes attributeOffset db rest
      results warnings h
    simp only [attrBindingLoop, h]

/-- Closed instance of `claim_C7`: `"foo.0"` fails to parse under the
always-failing collaborator yet produces no result, silently. -/
theorem claim_C7_witness :
    parseExpression parseJsAlwaysFail "foo.0".toList r0 = none :=
  claim_C7.2.1 parseJsAlwaysFail "foo.0".toList r0 parseFailureWarning rfl
    (Or.inr ⟨"foo".toList, ['0'], by decide, by decide, by decide⟩)

/-- The AST the parser returns for `a && b`: a single expression statement
whose expression is a `LogicalExpression` (a kind the validator rejects
with a WARNING). -/
def logicalProgram : Program :=
  { body := [Statement.expressionStatement (EsExpr.otherExpr "LogicalExpression" none) none]
    loc := none }

/-- A concrete parser collaborator that parses exactly `a && b` (to the
`LogicalExpression` program) and fails on everything else. -/
def parseJsLogical : ParseJs := fun content _ _ _ =>
  if content = "a && b".toList then ParseResult.success logicalProgram
  else ParseResult.failure parseFailureWarning

/-- Counterexample to C2 as stated: the binding `{{a && b}}` parses but
its unsupported-syntax validation produces a WARNING-severity diagnostic —
and the binding is NOT dropped: its expression record still appears in the
returned expressions. -/
theorem claim_C2_counterexample :
    ((extractDataBindingsFromTextNode parseJsLogical (some "{{a && b}}".toList)
        (some r0) [] []).2.map Warning.severity = [Severity.WARNING]) ∧
    ((extractDataBindingsFromTextNode parseJsLogical (some "{{a && b}}".toList)
        (some r0) [] []).1.length = 1) := by
  have hscan : findDatabindingInString "{{a && b}}".toList =
      [{ expressionText := "a && b".toList, startIndex := 2, endIndex := 8,
         direction := '{' }] := by
    rw [findDatabindingInString,
      findDatabindingAux_emit (m := 0) (j := 8) (d := '{') (by decide) (by decide),
      findDatabindingAux_none (by decide)]
    decide
  constructor
  · simp only [extractDataBindingsFromTextNode, Option.getD_some, hscan]
    decide
  · simp only [extractDataBindingsFromTextNode, Option.getD_some, hscan]
    decide

/-- C2 (amended): a binding whose expression text fails to PARSE is
dropped — its failure warning is appended, no expression record is
produced, and the loop continues with the remaining bindings — in both
extractors; a binding that parses is recorded, together with whatever
validation warnings its construction produced. -/
theorem claim_C2 :
    (∀ (parseJs : ParseJs) (file : String) (newlineIndexes : List Nat)
        (startOfTextNodeOffset : LocationOffset) (db : RawDatabinding)
        (rest : List RawDatabinding) results warnings (w : Warning),
      parseExpression parseJs db.expressionText
          (correctSourceRange
            (indexesToSourceRange db.startIndex db.endIndex file newlineIndexes)
            startOfTextNodeOffset) = some (ParseResult.failure w) →
      textNodeBindingLoop parseJs file newlineIndexes startOfTextNodeOffset
          (db :: rest) results warnings
        = textNodeBindingLoop parseJs file newlineIndexes startOfTextNodeOffset
            rest results (warnings ++ [w])) ∧
    (∀ (parseJs : ParseJs) (attrValue : List Char) (file : String)
        (newlineIndexes : List Nat) (attributeOffset : LocationOffset)
        (db : RawDatabinding) (rest : List RawDatabinding) results warnings
        (w : Warning),
      parseExpression parseJs (attrExpressionTextAndEvent db).1
          (correctSourceRange
            (indexesToSourceRange db.startIndex db.endIndex file newlineIndexes)
            attributeOffset) = some (ParseResult.failure w) →
      attrBindingLoop parseJs attrValue file newlineIndexes attributeOffset
          (db :: rest) results warnings
        = attrBindingLoop parseJs attrValue file newlineIndexes attributeOffset
            rest results (warnings ++ [w])) ∧
    (∀ (parseJs : ParseJs) (file : String) (newlineIndexes : List Nat)
        (startOfTextNodeOffset : LocationOffset) (db : RawDatabinding)
        (rest : List RawDatabinding) results warnings (p : Program),
      parseExpression parseJs db.expressionText
          (correctSourceRange
            (indexesToSourceRange db.startIndex db.endIndex file newlineIndexes)
            startOfTextNodeOffset) = some (ParseResult.success p) →
      textNodeBindingLoop parseJs file newlineIndexes startOfTextNodeOffset
          (db :: rest) results warnings
        = textNodeBindingLoop parseJs file newlineIndexes startOfTextNodeOffset
            rest
            (results ++ [HtmlDatabindingExpression.textNode
              (mkTextNodeDatabindingExpression db.direction
                (correctSourceRange
                  (indexesToSourceRange db.startIndex db.endIndex file newlineIndexes)
                  startOfTextNodeOffset)
                db.expressionText p)])
            (warnings ++ (mkTextNodeDatabindingExpression db.direction
                (correctSourceRange
                  (indexesToSourceRange db.startIndex db.endIndex file newlineIndexes)
                  startOfTextNodeOffset)
                db.expressionText p).warnings)) := by
  refine ⟨?_, ?_, ?_⟩
  · intro parseJs file newlineIndexes startOfTextNodeOffset db rest results
      warnings w h
    simp only [textNodeBindingLoop, h]
  · intro parseJs attrValue file newlineIndexes attributeOffset db rest results
      warnings w h
    simp only [attrBindingLoop, h]
  · intro parseJs file newlineIndexes startOfTextNodeOffset db rest results
      warnings p h
    simp only [textNodeBindingLoop, h]

/-- Closed instance of `claim_C2`: a binding that fails to parse is
dropped while its warning accumulates. -/
theorem claim_C2_witness :
    textNodeBindingLoop parseJsAlwaysFail "f" [] { line := 0, col := 0 }
        [RawDatabinding.mk "x".toList 2 3 '{'] [] []
      = textNodeBindingLoop parseJsAlwaysFail "f" [] { line := 0, col := 0 }
          [] [] ([] ++ [parseFailureWarning]) :=
  claim_C2.1 parseJsAlwaysFail "f" [] { line := 0, col := 0 }
    (RawDatabinding.mk "x".toList 2 3 '{') [] [] [] parseFailureWarning rfl
